import Mathlib

/-!
Verification development for the `recover_pdfCAD` repository.

We give a shallow embedding of the two core scripts:

* `scripts/crop_shapes.py` — affine matrix utilities (`mult_matrix`,
  `transform_point`, `get_raw_aabb`), the page base-transform extraction
  (`get_global_transform`, including its comment stripping, region-boundary
  search and `cm`-operator scan), the per-page memoization cache used by
  `crop_shapes`, and the crop-box-relative device mapping.
* `scripts/process_pdf_cad.py` — the Pass-1 registry construction
  (`analyze_global_shapes` over normalized fragment bodies), fragment
  geometry extraction (`get_bounding_box`, `parse_transform_matrix`,
  `is_shape_closed`), the Pass-2 instance extraction
  (`process_and_export`), and the final JSON assembly of `main`.

Python machine floats are embedded as rationals (`ℚ`); none of the verified
properties depend on rounding.  A Python expression that can raise an
exception (`float(...)` on a malformed numeral) is embedded with an `Option`
result, `none` standing for the raised exception.  Regular-expression scans
are embedded as character-level scanners implementing the concrete patterns
of the source (the number/whitespace character classes of each pattern are
disjoint, so greedy runs need no backtracking, except for the documented
`cm\s+ .*? \s+Q` interaction which is modelled explicitly).  The
`random.shuffle`d colour palette of Pass 1 is modelled as an explicit list
parameter, which is the only source of run-to-run variation.
-/

attribute [local semireducible] Rat.add Rat.sub Rat.mul Rat.inv Rat.ofScientific

/-- 2D affine matrix `[a, b, c, d, e, f]` as used throughout both scripts. -/
structure Mat (α : Type) where
  a : α
  b : α
  c : α
  d : α
  e : α
  f : α
deriving DecidableEq, Repr

/-- An axis-aligned box `(x0, y0, x1, y1)`, also used for crop boxes. -/
structure BBox (α : Type) where
  x0 : α
  y0 : α
  x1 : α
  y1 : α
deriving DecidableEq, Repr

/-- The identity matrix `[1, 0, 0, 1, 0, 0]`. -/
def idMat {α : Type} [LinearOrderedField α] : Mat α := ⟨1, 0, 0, 1, 0, 0⟩

/-- `crop_shapes.mult_matrix`: multiplies two affine matrices represented as
6-value lists; the result applies `m1` first, then `m2` (row-vector
convention of the PDF spec). -/
def mult_matrix {α : Type} [LinearOrderedField α] (m1 m2 : Mat α) : Mat α :=
  ⟨m1.a * m2.a + m1.b * m2.c, m1.a * m2.b + m1.b * m2.d,
   m1.c * m2.a + m1.d * m2.c, m1.c * m2.b + m1.d * m2.d,
   m1.e * m2.a + m1.f * m2.c + m2.e, m1.e * m2.b + m1.f * m2.d + m2.f⟩

/-- `crop_shapes.transform_point`: maps `(x, y)` through an affine matrix. -/
def transform_point {α : Type} [LinearOrderedField α] (x y : α) (m : Mat α) : α × α :=
  (m.a * x + m.c * y + m.e, m.b * x + m.d * y + m.f)

/-- `crop_shapes.get_raw_aabb`: transforms all four corners of a local box
through the instance matrix and takes the componentwise min/max.  The
source builds the four corner list `[(x0,y0), (x1,y0), (x1,y1), (x0,y1)]`
and takes `min`/`max` over the transformed coordinates. -/
def get_raw_aabb {α : Type} [LinearOrderedField α] (bb : BBox α) (m : Mat α) : BBox α :=
  let p1 := transform_point bb.x0 bb.y0 m
  let p2 := transform_point bb.x1 bb.y0 m
  let p3 := transform_point bb.x1 bb.y1 m
  let p4 := transform_point bb.x0 bb.y1 m
  ⟨min p1.1 (min p2.1 (min p3.1 p4.1)),
   min p1.2 (min p2.2 (min p3.2 p4.2)),
   max p1.1 (max p2.1 (max p3.1 p4.1)),
   max p1.2 (max p2.2 (max p3.2 p4.2))⟩

/-- Membership of a point in a box (used to state the 4-corner AABB rule). -/
def insideBBox {α : Type} [LinearOrderedField α] (p : α × α) (bb : BBox α) : Prop :=
  bb.x0 ≤ p.1 ∧ p.1 ≤ bb.x1 ∧ bb.y0 ≤ p.2 ∧ p.2 ≤ bb.y1

/-- The `\s` class of Python regular expressions. -/
def isWsChar (c : Char) : Bool :=
  c == ' ' || c == '\t' || c == '\n' || c == '\x0b' || c == '\x0c' || c == '\r'

/-- The `[0-9.\-]` class used by every number-matching pattern in both
scripts. -/
def isNumTokChar (c : Char) : Bool :=
  c.isDigit || c == '.' || c == '-'

/-- The `\w` class of Python regular expressions (ASCII fragment). -/
def isWordChar (c : Char) : Bool :=
  c.isAlphanum || c == '_'

/-- Numeric value of a digit run. -/
def digitsToNat (ds : List Char) : Nat :=
  ds.foldl (fun n c => 10 * n + (c.toNat - 48)) 0

/-- Python `float(token)` on a token drawn from the class `[0-9.\-]+`:
an optional leading minus, then `digits`, `digits.digits`, `digits.` or
`.digits`; anything else (e.g. a bare `-`, or a second `.` or `-`) raises
`ValueError`, embedded as `none`. -/
def pythonFloatCore (neg : Bool) (cs1 : List Char) : Option ℚ :=
  let ip := cs1.takeWhile Char.isDigit
  let rest1 := cs1.dropWhile Char.isDigit
  match rest1 with
  | [] =>
    if ip.isEmpty then none
    else some ((if neg then (-1 : ℚ) else 1) * (digitsToNat ip : ℚ))
  | '.' :: rest2 =>
    let fp := rest2.takeWhile Char.isDigit
    let rest3 := rest2.dropWhile Char.isDigit
    if rest3.isEmpty then
      if ip.isEmpty && fp.isEmpty then none
      else some ((if neg then (-1 : ℚ) else 1) *
        ((digitsToNat ip : ℚ) + (digitsToNat fp : ℚ) / (10 : ℚ) ^ fp.length))
    else none
  | _ => none

/-- Python `float` on a `[0-9.\-]+` token. -/
def pythonFloat (s : String) : Option ℚ :=
  match s.toList with
  | '-' :: rest => pythonFloatCore true rest
  | cs => pythonFloatCore false cs

/-- One maximal `[0-9.\-]+` run at the head of the input, or failure. -/
def takeNumTok (cs : List Char) : Option (List Char × List Char) :=
  let run := cs.takeWhile isNumTokChar
  if run.isEmpty then none else some (run, cs.dropWhile isNumTokChar)

/-- One maximal `\s+` run at the head of the input, or failure. -/
def takeWsRun (cs : List Char) : Option (List Char × List Char) :=
  let run := cs.takeWhile isWsChar
  if run.isEmpty then none else some (run, cs.dropWhile isWsChar)

/-- `n` copies of `[0-9.\-]+\s+`: returns the number tokens, the exact text
consumed, and the rest.  Because the number class and `\s` are disjoint,
greedy maximal runs coincide with the backtracking regex semantics. -/
def takeNumWsSeq : Nat → List Char → Option (List String × List Char × List Char)
  | 0, cs => some ([], [], cs)
  | n + 1, cs => do
    let (run, r1) ← takeNumTok cs
    let (ws, r2) ← takeWsRun r1
    let (toks, txt, r3) ← takeNumWsSeq n r2
    some (String.mk run :: toks, run ++ ws ++ txt, r3)

/-- `findNumsF` scans for all maximal `[0-9.\-]+` runs, left to right:
`re.findall(r'([0-9.\-]+)', s)` of `parse_transform_matrix`. -/
def findNumsF : Nat → List Char → List String
  | 0, _ => []
  | _, [] => []
  | fuel + 1, c :: rest =>
    if isNumTokChar c then
      String.mk ((c :: rest).takeWhile isNumTokChar) ::
        findNumsF fuel ((c :: rest).dropWhile isNumTokChar)
    else
      findNumsF fuel rest

/-- All maximal `[0-9.\-]+` runs of a string, in order. -/
def findNums (s : String) : List String := findNumsF s.toList.length s.toList

/-- Generic non-overlapping leftmost scan used for every `findall` in the
sources: try a match at each position; on success continue after the match,
on failure advance one character. -/
def scanAll (m : List Char → Option (List String × List Char)) :
    Nat → List Char → List (List String)
  | 0, _ => []
  | _, [] => []
  | fuel + 1, c :: rest =>
    match m (c :: rest) with
    | some (toks, after) => toks :: scanAll m fuel after
    | none => scanAll m fuel rest

/-- Matcher for `([0-9.\-]+\s+){6}cm` (the pattern of `get_global_transform`,
with its six capture groups). -/
def matchCmAt (cs : List Char) : Option (List String × List Char) := do
  let (toks, _, r) ← takeNumWsSeq 6 cs
  match r with
  | 'c' :: 'm' :: rest => some (toks, rest)
  | _ => none

/-- Matcher for `([0-9.\-]+)\s+([0-9.\-]+)\s+[ml]` of `get_bounding_box`. -/
def matchPointAt (cs : List Char) : Option (List String × List Char) := do
  let (toks, _, r) ← takeNumWsSeq 2 cs
  match r with
  | 'm' :: rest => some (toks, rest)
  | 'l' :: rest => some (toks, rest)
  | _ => none

/-- Matcher for the six-operand `...\s+c` curve pattern of
`get_bounding_box`. -/
def matchCurveAt (cs : List Char) : Option (List String × List Char) := do
  let (toks, _, r) ← takeNumWsSeq 6 cs
  match r with
  | 'c' :: rest => some (toks, rest)
  | _ => none

/-- Matcher for the four-operand `...\s+re` rectangle pattern of
`get_bounding_box`. -/
def matchRectAt (cs : List Char) : Option (List String × List Char) := do
  let (toks, _, r) ← takeNumWsSeq 4 cs
  match r with
  | 'r' :: 'e' :: rest => some (toks, rest)
  | _ => none

/-- State machine for comment stripping: once a `%` is seen, drop characters
up to (but not including) the next newline. -/
def stripCommentsAux : Bool → List Char → List Char
  | _, [] => []
  | inComment, c :: rest =>
    if c = '\n' then c :: stripCommentsAux false rest
    else if inComment then stripCommentsAux true rest
    else if c = '%' then stripCommentsAux true rest
    else c :: stripCommentsAux false rest

/-- `re.sub(r'%.*', '', text)`: on each line, drop everything from the first
`%` on (`.` does not match the newline, which is kept). -/
def stripComments (s : String) : String :=
  String.mk (stripCommentsAux false s.toList)

/-- Right word-boundary test: end of input, or a non-word character next. -/
def nextNonWord : List Char → Bool
  | [] => true
  | c :: _ => !isWordChar c

/-- Does `\b(q|BT|Do)\b` match at the head of `cs`, where `prevWord` says
whether the previous character (if any) was a word character? -/
def boundaryAt (prevWord : Bool) : List Char → Bool
  | 'q' :: rest => !prevWord && nextNonWord rest
  | 'B' :: 'T' :: rest => !prevWord && nextNonWord rest
  | 'D' :: 'o' :: rest => !prevWord && nextNonWord rest
  | _ => false

/-- Position of the first `\b(q|BT|Do)\b` match (`re.search`). -/
def findBoundaryAux : Bool → Nat → List Char → Option Nat
  | _, _, [] => none
  | prevWord, i, c :: rest =>
    if boundaryAt prevWord (c :: rest) then some i
    else findBoundaryAux (isWordChar c) (i + 1) rest

/-- `re.search(r'\b(q|BT|Do)\b', text)`, returning `match.start()`. -/
def findBoundaryPos (cs : List Char) : Option Nat :=
  findBoundaryAux false 0 cs

/-- `matOfList [a,b,c,d,e,f]` re-packages the six parsed operands (the
scanner always supplies exactly six). -/
def matOfList (l : List ℚ) : Mat ℚ :=
  match l with
  | [a, b, c, d, e, f] => ⟨a, b, c, d, e, f⟩
  | _ => idMat

/-- The accumulation loop of `get_global_transform`, lines 89-96: for each
`cm` match, convert the six operands with `float` (a failure raises, hence
`none`) and premultiply into the running matrix:
`global_matrix = mult_matrix(args, global_matrix)`. -/
def composeLoop : Mat ℚ → List (List String) → Option (Mat ℚ)
  | g, [] => some g
  | g, toks :: ms => do
    let args ← toks.mapM pythonFloat
    composeLoop (mult_matrix (matOfList args) g) ms

/-- `crop_shapes.get_global_transform` on the decoded content text:
strip comments, find the first `q`/`BT`/`Do` boundary (else use 1000),
scan the header for `cm` operators, and fold them from the identity. -/
def get_global_transform (text : String) : Option (Mat ℚ) :=
  let t := (stripComments text).toList
  let limit := match findBoundaryPos t with
    | some i => i
    | none => 1000
  let header := t.take limit
  let cm_matches := scanAll matchCmAt header.length header
  if cm_matches.isEmpty then some idMat
  else composeLoop idMat cm_matches

/-- The spec's description of `PageBaseTransform.compute`: take the header up
to the first region-boundary token (or the first 1000 characters), parse
every `cm` invocation in it, and compose them in encounter order starting
from the identity, each new transform premultiplied into the accumulator. -/
def pageBaseTransformSpec (text : String) : Option (Mat ℚ) :=
  let t := (stripComments text).toList
  let header := t.take ((findBoundaryPos t).getD 1000)
  ((scanAll matchCmAt header.length header).mapM (fun toks => List.mapM pythonFloat toks)).map
    (fun ms => ms.foldl (fun g args => mult_matrix (matOfList args) g) idMat)

/-- Matcher for the suffix group `(\s+Q)`: a nonempty whitespace run whose
first following character is `Q` (whitespace never equals `Q`, so the greedy
run needs no backtracking). -/
def matchSfxAt (cs : List Char) : Option (List Char × List Char) :=
  let run := cs.takeWhile isWsChar
  if run.isEmpty then none
  else match cs.dropWhile isWsChar with
    | 'Q' :: rest => some (run ++ ['Q'], rest)
    | _ => none

/-- The lazy body `(.*?)(\s+Q)` (with `re.DOTALL`): grow the body one
character at a time until the suffix matches. -/
def findBodyEnd : List Char → Option (List Char × List Char × List Char)
  | [] =>
    match matchSfxAt [] with
    | some (sfx, rest) => some ([], sfx, rest)
    | none => none
  | c :: r =>
    match matchSfxAt (c :: r) with
    | some (sfx, rest) => some ([], sfx, rest)
    | none => (findBodyEnd r).map (fun t => (c :: t.1, t.2.1, t.2.2))

/-- Matcher for the fragment pattern of both passes,
`(q\s+(?:[0-9.\-]+\s+){6}cm\s+)(.*?)(\s+Q)` with `re.DOTALL`, returning
`(prefix group, body group, suffix group, rest)`.

The trailing `\s+` of the prefix group is greedy; if no suffix match exists
after the maximal run, the engine backtracks exactly one step: when the run
has length at least two and is directly followed by `Q`, the last whitespace
character is handed to the suffix group and the body is empty. -/
def matchFragAt : List Char → Option (String × String × String × List Char)
  | 'q' :: r0 => do
    let (ws1, r1) ← takeWsRun r0
    let (_, numTxt, r2) ← takeNumWsSeq 6 r1
    match r2 with
    | 'c' :: 'm' :: r3 => do
      let (w, r4) ← takeWsRun r3
      match findBodyEnd r4 with
      | some (body, sfx, rest) =>
        some (String.mk ('q' :: ws1 ++ numTxt ++ ['c', 'm'] ++ w),
              String.mk body, String.mk sfx, rest)
      | none =>
        match r4 with
        | 'Q' :: rest =>
          if 2 ≤ w.length then
            some (String.mk ('q' :: ws1 ++ numTxt ++ ['c', 'm'] ++ w.dropLast),
                  "", String.mk [w.getLastD ' ', 'Q'], rest)
          else none
        | _ => none
    | _ => none
  | _ => none

/-- Non-overlapping leftmost scan of the fragment pattern over a stream. -/
def findFragsF : Nat → List Char → List (String × String × String)
  | 0, _ => []
  | _, [] => []
  | fuel + 1, c :: rest =>
    match matchFragAt (c :: rest) with
    | some (pfx, body, sfx, after) => (pfx, body, sfx) :: findFragsF fuel after
    | none => findFragsF fuel rest

/-- `pattern.findall(text)` for the fragment pattern: the stream segmenter
used verbatim (no comment stripping) by both `analyze_global_shapes` and
`process_and_export`. -/
def segmentStream (text : String) : List (String × String × String) :=
  findFragsF text.toList.length text.toList

/-- Scanner for Python `str.split()`: the maximal non-whitespace runs. -/
def pySplitF : Nat → List Char → List String
  | 0, _ => []
  | _, [] => []
  | fuel + 1, c :: rest =>
    if isWsChar c then pySplitF fuel rest
    else
      String.mk ((c :: rest).takeWhile (fun x => !isWsChar x)) ::
        pySplitF fuel ((c :: rest).dropWhile (fun x => !isWsChar x))

/-- Python `str.split()`: split on whitespace runs, dropping empty pieces. -/
def pySplit (s : String) : List String :=
  pySplitF s.toList.length s.toList

/-- `normalize_snippet`: collapse all whitespace runs to single spaces. -/
def normalize_snippet (s : String) : String :=
  String.intercalate " " (pySplit s)

/-- `parse_transform_matrix`: all `[0-9.\-]+` runs of the prefix; if at
least six are present, `float` the last six (a malformed token raises,
hence `none`), otherwise fall back to the identity matrix. -/
def parse_transform_matrix (s : String) : Option (Mat ℚ) :=
  let nums := findNums s
  if 6 ≤ nums.length then
    ((nums.drop (nums.length - 6)).mapM pythonFloat).map matOfList
  else some idMat

/-- Minimum of a coordinate list (`min(xs)`; the caller guarantees the list
is nonempty, the default is never used). -/
def listMinD {α : Type} [LinearOrderedField α] : List α → α
  | [] => 0
  | x :: xs => xs.foldl min x

/-- Maximum of a coordinate list (`max(xs)`). -/
def listMaxD {α : Type} [LinearOrderedField α] : List α → α
  | [] => 0
  | x :: xs => xs.foldl max x

/-- `get_bounding_box(snippet)`: scan for move/line points, cubic curves and
rectangles, collect every referenced x/y operand and take componentwise
min/max.  Outer `none` embeds a `float` `ValueError`; `some none` is the
"no geometry" sentinel (`return None`). -/
def get_bounding_box (snippet : String) : Option (Option (BBox ℚ)) := do
  let cs := snippet.toList
  let ptToks := scanAll matchPointAt cs.length cs
  let cvToks := scanAll matchCurveAt cs.length cs
  let rcToks := scanAll matchRectAt cs.length cs
  let pts ← ptToks.mapM (fun t => List.mapM pythonFloat t)
  let cvs ← cvToks.mapM (fun t => List.mapM pythonFloat t)
  let rcs ← rcToks.mapM (fun t => List.mapM pythonFloat t)
  let xs := pts.map (fun t => t.getD 0 0) ++
      (cvs.map (fun t => [t.getD 0 0, t.getD 2 0, t.getD 4 0])).flatten ++
      (rcs.map (fun t => [t.getD 0 0, t.getD 0 0 + t.getD 2 0])).flatten
  let ys := pts.map (fun t => t.getD 1 0) ++
      (cvs.map (fun t => [t.getD 1 0, t.getD 3 0, t.getD 5 0])).flatten ++
      (rcs.map (fun t => [t.getD 1 0, t.getD 1 0 + t.getD 3 0])).flatten
  if xs.isEmpty then some none
  else some (some ⟨listMinD xs, listMinD ys, listMaxD xs, listMaxD ys⟩)

/-- The path-painting operators that imply closure in `is_shape_closed`. -/
def closingPainters : List String := ["s", "f", "F", "f*", "b", "B", "b*", "B*"]

/-- `is_shape_closed`: token inspection of the snippet — `h`, `re`, or any
closing painter anywhere means closed. -/
def is_shape_closed (snippet : String) : Bool :=
  let tokens := pySplit snippet
  tokens.contains "h" || tokens.contains "re" ||
    tokens.any (fun t => closingPainters.contains t)

/-- One `q ... cm [body] Q` fragment of the corpus, already segmented:
`page` (1-based), the prefix group text and the raw body. -/
structure Frag where
  page : Nat
  pre : String
  body : String
deriving DecidableEq, Repr

/-- The per-key registry record of Pass 1 (`global_registry` values). -/
structure ShapeMeta where
  id : Nat
  count : Nat
  color : ℚ × ℚ × ℚ
  is_closed : Bool
deriving DecidableEq, Repr

/-- First-appearance order of keys, as a Python `dict` preserves insertion
order while counting (`snippet_counts`). -/
def keysInOrder : List String → List String
  | [] => []
  | k :: ks => k :: (keysInOrder ks).filter (fun x => x != k)

/-- `repeated_snippets`: the keys whose corpus-wide count is strictly
greater than one, in first-appearance order. -/
def retainedOf (norms : List String) : List String :=
  (keysInOrder norms).filter (fun s => decide (1 < norms.count s))

/-- `snippet_raw_map[k]`: the first raw body whose normalization is `k`. -/
def firstRawFor (frags : List Frag) (k : String) : String :=
  match frags.find? (fun f => normalize_snippet f.body == k) with
  | some f => f.body
  | none => ""

/-- The registry-building loop of Pass 1: the `idx`-th retained key gets id
`idx + 1`, its corpus-wide count, the next colour of the (shuffled) palette
and the closedness of its first raw occurrence. -/
def buildRegistry (norms : List String) (frags : List Frag) :
    Nat → List (ℚ × ℚ × ℚ) → List String → List (String × ShapeMeta)
  | _, _, [] => []
  | n, cs, k :: ks =>
    (k, { id := n, count := norms.count k, color := cs.headD (0, 0, 0),
          is_closed := is_shape_closed (firstRawFor frags k) })
      :: buildRegistry norms frags (n + 1) cs.tail ks

/-- `analyze_global_shapes` (Pass 1) over the segmented corpus.  The shuffled
colour palette is passed explicitly: it is the run's only random input. -/
def analyze_global_shapes (colors : List (ℚ × ℚ × ℚ)) (frags : List Frag) :
    List (String × ShapeMeta) :=
  let norms := frags.map (fun f => normalize_snippet f.body)
  buildRegistry norms frags 1 colors (retainedOf norms)

/-- `global_registry[norm]` with the `in`-test: first matching key. -/
def lookupKey (k : String) : List (String × ShapeMeta) → Option ShapeMeta
  | [] => none
  | (k', m) :: rest => if k' = k then some m else lookupKey k rest

/-- One JSON instance record produced by `replacement_handler`. -/
structure Inst where
  instance_id : Nat
  page : Nat
  shape_id : Nat
  bbox_local : BBox ℚ
  transform_matrix : Mat ℚ
  snippet_raw : String
deriving DecidableEq, Repr

/-- The Pass-2 loop body over fragments (`replacement_handler`): consult the
registry; for a retained fragment compute the bounding box and then the
transform matrix (either may raise: `none` aborts the run); append an
instance — and advance the counter — only when the box is present. -/
def pass2Aux (reg : List (String × ShapeMeta)) :
    List Frag → Nat → Option (List Inst)
  | [], _ => some []
  | f :: rest, ctr =>
    match lookupKey (normalize_snippet f.body) reg with
    | none => pass2Aux reg rest ctr
    | some m =>
      match get_bounding_box f.body, parse_transform_matrix f.pre with
      | none, _ => none
      | some _, none => none
      | some none, some _ => pass2Aux reg rest ctr
      | some (some bb), some mat =>
        (pass2Aux reg rest (ctr + 1)).map
          (fun l =>
            { instance_id := ctr, page := f.page, shape_id := m.id,
              bbox_local := bb, transform_matrix := mat,
              snippet_raw := f.body } :: l)

/-- `process_and_export` (Pass 2): the instance list, with the counter
starting at 1; `none` when a `float` conversion raised. -/
def process_and_export (frags : List Frag) (reg : List (String × ShapeMeta)) :
    Option (List Inst) :=
  pass2Aux reg frags 1

/-- One JSON `shape_definitions` entry of `main`. -/
structure ShapeDefJson where
  semantic_label : String
  count : Nat
  color_rgb : ℚ × ℚ × ℚ
  is_closed : Bool
deriving DecidableEq, Repr

/-- The `shape_definitions` mapping of `main`: `str(meta['id'])` keyed
records (ids are pairwise distinct, so the dict has one entry per
registry entry). -/
def shape_definitions_of (reg : List (String × ShapeMeta)) :
    List (Nat × ShapeDefJson) :=
  reg.map (fun e => (e.2.id, ⟨"", e.2.count, e.2.color, e.2.is_closed⟩))

/-- The `metadata` object of the persisted artifact. -/
structure Metadata where
  source_file : String
  total_instances : Nat
  unique_shapes : Nat
deriving DecidableEq, Repr

/-- The persisted JSON artifact (`final_json` of `main`). -/
structure FinalJson where
  metadata : Metadata
  shape_definitions : List (Nat × ShapeDefJson)
  instances : List Inst
deriving DecidableEq, Repr

/-- `main`'s assembly of the artifact from the Pass-1 registry and the
Pass-2 instance list. -/
def build_final_json (src : String) (reg : List (String × ShapeMeta))
    (insts : List Inst) : FinalJson :=
  let defs := shape_definitions_of reg
  ⟨⟨src, insts.length, defs.length⟩, defs, insts⟩

/-- `crop_shapes`'s per-page transform cache (`page_transforms`), plus a log
of the pages for which `get_global_transform` was actually invoked. -/
structure CropCache where
  seen : List (Nat × Option (Mat ℚ))
  computeLog : List Nat
deriving DecidableEq, Repr

/-- `page_transforms.get(page)`. -/
def lookupPage (p : Nat) : List (Nat × Option (Mat ℚ)) → Option (Option (Mat ℚ))
  | [] => none
  | (q, v) :: rest => if q = p then some v else lookupPage p rest

/-- One instance-loop step of `crop_shapes`, restricted to the cache:
`if page_num not in page_transforms: page_transforms[page_num] =
get_global_transform(page)`. -/
def memoStep (content : Nat → String) (st : CropCache) (p : Nat) : CropCache :=
  match lookupPage p st.seen with
  | some _ => st
  | none => ⟨(p, get_global_transform (content p)) :: st.seen, p :: st.computeLog⟩

/-- The instance loop of `crop_shapes` over the pages of the instance list,
starting from an empty cache. -/
def runCrop (content : Nat → String) (ps : List Nat) : CropCache :=
  ps.foldl (memoStep content) ⟨[], []⟩

/-- The crop-box-relative device mapping of `crop_shapes`, step 4 (before
padding): x offsets relative to the crop-box left edge, y offsets relative
to the crop-box top edge `y1` with the vertical flip. -/
def map_to_device (cropbox pdfBox : BBox ℚ) : BBox ℚ :=
  { x0 := pdfBox.x0 - cropbox.x0,
    y0 := cropbox.y1 - pdfBox.y1,
    x1 := pdfBox.x1 - cropbox.x0,
    y1 := cropbox.y1 - pdfBox.y0 }

/-- The 90° rotation `[0, 1, -1, 0, 0, 0]` of the order-sensitivity test. -/
def rot90 : Mat ℚ := ⟨0, 1, -1, 0, 0, 0⟩

/-- The translation `[1, 0, 0, 1, 10, 0]` of the order-sensitivity test. -/
def trans10 : Mat ℚ := ⟨1, 0, 0, 1, 10, 0⟩

/-- A page header that defines `rot90` and then `trans10` via two `cm`
operators. -/
def c1Stream : String := "0 1 -1 0 0 0 cm 1 0 0 1 10 0 cm "

/-- Two occurrences of a fragment whose body `h S` closes and strokes a path
but references no coordinates at all (no `m`/`l`/`c`/`re` operands). -/
def fragsNoGeom : List Frag :=
  [⟨1, "q 1 0 0 1 0 0 cm ", "h S"⟩, ⟨1, "q 1 0 0 1 0 0 cm ", "h S"⟩]

/-- Two occurrences of a rectangle fragment with extractable geometry. -/
def fragsRect : List Frag :=
  [⟨1, "q 1 0 0 1 0 0 cm ", "0 0 10 10 re f"⟩,
   ⟨2, "q 1 0 0 1 0 0 cm ", "0 0 10 10 re f"⟩]

/-- A content stream consisting of one fully commented-out fragment. -/
def commentedStream : String := "% q 1 0 0 1 0 0 cm XYZ Q"

/-- A stream with a commented-out `cm` on the first line and a live `cm`
before the first `q` on the second. -/
def commentedCmStream : String := "% 9 0 0 9 0 0 cm\n2 0 0 2 0 0 cm q"

/-- Does a Pass-2 iteration over `f` append an instance carrying shape id
`sid`?  (Retained in the registry, geometry present, ids equal.) -/
def countsFor (reg : List (String × ShapeMeta)) (sid : Nat) (f : Frag) : Bool :=
  match lookupKey (normalize_snippet f.body) reg, get_bounding_box f.body with
  | some m, some (some _) => m.id == sid
  | _, _ => false

/-- Invariant of the page-transform cache: every stored value is the
transform of its page, and the computation log is duplicate-free and
matches the cache domain. -/
def cacheOK (content : Nat → String) (st : CropCache) : Prop :=
  (∀ p v, lookupPage p st.seen = some v → v = get_global_transform (content p)) ∧
  st.computeLog.Nodup ∧
  (∀ p, p ∈ st.computeLog ↔ (lookupPage p st.seen).isSome)

theorem mem_keysInOrder {k : String} : ∀ {l : List String}, k ∈ keysInOrder l ↔ k ∈ l := by
  intro l
  induction l with
  | nil => simp [keysInOrder]
  | cons a as ih =>
    simp only [keysInOrder, List.mem_cons, List.mem_filter]
    constructor
    · rintro (h | ⟨h1, _⟩)
      · exact Or.inl h
      · exact Or.inr (ih.mp h1)
    · rintro (h | h)
      · exact Or.inl h
      · by_cases hk : k = a
        · exact Or.inl hk
        · exact Or.inr ⟨ih.mpr h, by simp [hk]⟩

theorem nodup_keysInOrder : ∀ l : List String, (keysInOrder l).Nodup := by
  intro l
  induction l with
  | nil => simp [keysInOrder]
  | cons a as ih =>
    simp only [keysInOrder, List.nodup_cons]
    refine ⟨?_, ih.filter _⟩
    intro hmem
    have h := (List.mem_filter.mp hmem).2
    simp at h

theorem buildRegistry_map_fst (norms : List String) (frags : List Frag) :
    ∀ (l : List String) (n : Nat) (cs : List (ℚ × ℚ × ℚ)),
      (buildRegistry norms frags n cs l).map Prod.fst = l := by
  intro l
  induction l with
  | nil => intro n cs; rfl
  | cons k ks ih => intro n cs; simp [buildRegistry, ih]

theorem buildRegistry_map_id (norms : List String) (frags : List Frag) :
    ∀ (l : List String) (n : Nat) (cs : List (ℚ × ℚ × ℚ)),
      (buildRegistry norms frags n cs l).map (fun e => e.2.id) = List.range' n l.length := by
  intro l
  induction l with
  | nil => intro n cs; rfl
  | cons k ks ih => intro n cs; simp [buildRegistry, ih, List.range']

theorem lookupKey_isSome_iff {k : String} :
    ∀ {reg : List (String × ShapeMeta)},
      (lookupKey k reg).isSome ↔ k ∈ reg.map Prod.fst := by
  intro reg
  induction reg with
  | nil => simp [lookupKey]
  | cons e rest ih =>
    obtain ⟨k', m⟩ := e
    by_cases h : k' = k
    · subst h; simp [lookupKey]
    · simp [lookupKey, h, ih, Ne.symm h]

theorem lookupKey_mem {k : String} {m : ShapeMeta} :
    ∀ {reg : List (String × ShapeMeta)}, lookupKey k reg = some m → (k, m) ∈ reg := by
  intro reg
  induction reg with
  | nil => intro h; simp [lookupKey] at h
  | cons e rest ih =>
    obtain ⟨k', m'⟩ := e
    intro h
    simp only [lookupKey] at h
    split at h
    · next heq =>
        cases h
        subst heq
        exact List.mem_cons_self _ _
    · next hne => exact List.mem_cons_of_mem _ (ih h)

theorem mem_buildRegistry (norms : List String) (frags : List Frag) :
    ∀ (l : List String) (n : Nat) (cs : List (ℚ × ℚ × ℚ)) (k : String) (m : ShapeMeta),
      (k, m) ∈ buildRegistry norms frags n cs l →
      m.count = norms.count k ∧ ∃ i, i < l.length ∧ l.get? i = some k ∧ m.id = n + i := by
  intro l
  induction l with
  | nil => intro n cs k m h; simp [buildRegistry] at h
  | cons a as ih =>
    intro n cs k m h
    simp only [buildRegistry, List.mem_cons] at h
    rcases h with h | h
    · injection h with hk hm
      subst hk
      subst hm
      exact ⟨rfl, 0, by simp, rfl, by simp⟩
    · obtain ⟨hc, i, hi, hget, hid⟩ := ih (n + 1) cs.tail k m h
      exact ⟨hc, i + 1, by simpa using hi, by simpa using hget, by omega⟩

/-- C1: affine composition is operand-order-sensitive, and the pipeline
premultiplies each newly encountered transform into the accumulated matrix:
on a header defining `rot90` and then `trans10`, `get_global_transform`
returns `mult_matrix trans10 (mult_matrix rot90 idMat)`; and applying
`mult_matrix rot90 trans10` versus `mult_matrix trans10 rot90` to the point
`(1, 0)` gives two different results ((10, 1) versus (0, 11)). -/
theorem compose_premultiplies_and_is_order_sensitive :
    get_global_transform c1Stream =
      some (mult_matrix trans10 (mult_matrix rot90 idMat)) ∧
    transform_point (1 : ℚ) 0 (mult_matrix rot90 trans10) ≠
      transform_point (1 : ℚ) 0 (mult_matrix trans10 rot90) := by
  exact ⟨by decide, by decide⟩

/-- C8: the device mapping computes x offsets relative to the crop-box left
edge and y offsets relative to the crop-box top `y1` with a vertical flip;
for a crop box with top `y1 = 100` and a page-space box with
`miny = 40`, `maxy = 60` the device rectangle has top 40 and bottom 60. -/
theorem viewport_maps_relative_to_cropbox_with_yflip :
    (∀ cb pb : BBox ℚ,
      (map_to_device cb pb).x0 = pb.x0 - cb.x0 ∧
      (map_to_device cb pb).x1 = pb.x1 - cb.x0 ∧
      (map_to_device cb pb).y0 = cb.y1 - pb.y1 ∧
      (map_to_device cb pb).y1 = cb.y1 - pb.y0) ∧
    (map_to_device ⟨0, 0, 200, 100⟩ ⟨10, 40, 20, 60⟩).y0 = 40 ∧
    (map_to_device ⟨0, 0, 200, 100⟩ ⟨10, 40, 20, 60⟩).y1 = 60 := by
  exact ⟨fun cb pb => ⟨rfl, rfl, rfl, rfl⟩, by decide, by decide⟩

/-- C10: in the persisted artifact, `metadata.total_instances` equals the
length of the instances array and `metadata.unique_shapes` equals the number
of `shape_definitions` entries (whose ids are pairwise distinct, so the
Python dict has exactly one entry per registry entry). -/
theorem metadata_counts_consistent :
    ∀ (src : String) (colors : List (ℚ × ℚ × ℚ)) (frags : List Frag)
      (insts : List Inst),
      (build_final_json src (analyze_global_shapes colors frags) insts).metadata.total_instances
        = (build_final_json src (analyze_global_shapes colors frags) insts).instances.length ∧
      (build_final_json src (analyze_global_shapes colors frags) insts).metadata.unique_shapes
        = (build_final_json src (analyze_global_shapes colors frags) insts).shape_definitions.length ∧
      ((build_final_json src (analyze_global_shapes colors frags) insts).shape_definitions.map
          Prod.fst).Nodup := by
  intro src colors frags insts
  refine ⟨rfl, rfl, ?_⟩
  have h1 : (build_final_json src (analyze_global_shapes colors frags) insts).shape_definitions.map
      Prod.fst = (analyze_global_shapes colors frags).map (fun e => e.2.id) := by
    simp [build_final_json, shape_definitions_of, List.map_map, Function.comp]
  rw [h1]
  unfold analyze_global_shapes
  rw [buildRegistry_map_id]
  exact List.nodup_range' _ _

/-- C3: Pass 1 retains a normalized key iff its corpus-wide occurrence
count is strictly greater than 1; the registry keys appear in
first-appearance order among retained keys, and their ids form the
contiguous range `1..K`. -/
theorem registry_retains_repeats_with_contiguous_ids :
    ∀ (colors : List (ℚ × ℚ × ℚ)) (frags : List Frag),
      (∀ k : String,
        (lookupKey k (analyze_global_shapes colors frags)).isSome ↔
          1 < (frags.map (fun f => normalize_snippet f.body)).count k) ∧
      (analyze_global_shapes colors frags).map Prod.fst
        = retainedOf (frags.map (fun f => normalize_snippet f.body)) ∧
      (analyze_global_shapes colors frags).map (fun e => e.2.id)
        = List.range' 1 (analyze_global_shapes colors frags).length := by
  intro colors frags
  set norms := frags.map (fun f => normalize_snippet f.body) with hnorms
  have hfst : (analyze_global_shapes colors frags).map Prod.fst = retainedOf norms := by
    unfold analyze_global_shapes
    rw [← hnorms, buildRegistry_map_fst]
  refine ⟨?_, hfst, ?_⟩
  · intro k
    rw [lookupKey_isSome_iff, hfst]
    unfold retainedOf
    rw [List.mem_filter]
    constructor
    · rintro ⟨-, h⟩
      exact of_decide_eq_true h
    · intro h
      refine ⟨?_, decide_eq_true h⟩
      have : k ∈ norms := List.count_pos_iff.mp (by omega)
      exact mem_keysInOrder.mpr this
  · have hlen : (analyze_global_shapes colors frags).length = (retainedOf norms).length := by
      rw [← buildRegistry_map_fst norms frags (retainedOf norms) 1 colors, List.length_map]
      rfl
    rw [hlen]
    unfold analyze_global_shapes
    rw [← hnorms, buildRegistry_map_id]

/-- Colour-blind projection of the registry is independent of the palette. -/
theorem buildRegistry_drop_color (norms : List String) (frags : List Frag) :
    ∀ (l : List String) (n : Nat) (cs1 cs2 : List (ℚ × ℚ × ℚ)),
      (buildRegistry norms frags n cs1 l).map (fun e => (e.1, e.2.id, e.2.count, e.2.is_closed))
        = (buildRegistry norms frags n cs2 l).map
            (fun e => (e.1, e.2.id, e.2.count, e.2.is_closed)) := by
  intro l
  induction l with
  | nil => intro n cs1 cs2; rfl
  | cons k ks ih => intro n cs1 cs2; simp [buildRegistry, ih (n + 1) cs1.tail cs2.tail]

/-- C9: re-running Pass 1 (and hence the `shape_definitions` assembly) on
the same fragments with a different shuffled palette yields identical
`shape_definitions` up to the colour field: ids, labels, counts and closed
flags all agree. -/
theorem shape_definitions_deterministic_up_to_color :
    ∀ (frags : List Frag) (c1 c2 : List (ℚ × ℚ × ℚ)),
      (shape_definitions_of (analyze_global_shapes c1 frags)).map
          (fun e => (e.1, e.2.semantic_label, e.2.count, e.2.is_closed))
        = (shape_definitions_of (analyze_global_shapes c2 frags)).map
            (fun e => (e.1, e.2.semantic_label, e.2.count, e.2.is_closed)) := by
  intro frags c1 c2
  have h := buildRegistry_drop_color (frags.map (fun f => normalize_snippet f.body)) frags
    (retainedOf (frags.map (fun f => normalize_snippet f.body))) 1 c1 c2
  have h2 := congrArg
    (List.map (fun t : String × Nat × Nat × Bool => (t.2.1, ("" : String), t.2.2.1, t.2.2.2))) h
  unfold analyze_global_shapes
  simpa [shape_definitions_of, List.map_map, Function.comp] using h2

/-- C6 counterexample: a fragment prefix whose six number-shaped operand
tokens are all the malformed numeral `-` reaches the `float` conversion
(six tokens are present) and raises, aborting the run — modelled as `none`
— rather than degrading to a default or skip. -/
theorem parse_matrix_malformed_operands_abort :
    parse_transform_matrix "q - - - - - - cm " = none := by decide

/-- C6 amended: matrix extraction returns the last six numeric operands
(those immediately preceding the `cm` operator in a fragment prefix) when
at least six number-shaped tokens are present and they all parse; it falls
back to the identity matrix when fewer than six are present; but a
number-shaped token that is not a valid numeral raises an exception that
aborts the whole batch. -/
theorem parse_matrix_last_six_or_identity :
    (∀ s : String, (findNums s).length < 6 → parse_transform_matrix s = some idMat) ∧
    (∀ (s : String) (vals : List ℚ),
      6 ≤ (findNums s).length →
      ((findNums s).drop ((findNums s).length - 6)).mapM pythonFloat = some vals →
      parse_transform_matrix s = some (matOfList vals)) ∧
    parse_transform_matrix "q 0.5 -3 2 1 0 7 cm " = some ⟨1/2, -3, 2, 1, 0, 7⟩ := by
  refine ⟨?_, ?_, by decide⟩
  · intro s h
    unfold parse_transform_matrix
    rw [if_neg (by omega)]
  · intro s vals h hp
    unfold parse_transform_matrix
    rw [if_pos h, hp]
    rfl

/-- C6 witness: the two guarded branches at concrete inputs: `"1 2"` has
fewer than six tokens and falls back to the identity; `"1 2 3 4 5 6 7"` has
seven and yields the last six. -/
theorem parse_matrix_last_six_or_identity_witness :
    ((findNums "1 2").length < 6 ∧ parse_transform_matrix "1 2" = some idMat) ∧
    (6 ≤ (findNums "1 2 3 4 5 6 7").length ∧
      parse_transform_matrix "1 2 3 4 5 6 7" = some (matOfList [2, 3, 4, 5, 6, 7])) :=
  ⟨⟨by decide, parse_matrix_last_six_or_identity.1 "1 2" (by decide)⟩,
   ⟨by decide, parse_matrix_last_six_or_identity.2.1 "1 2 3 4 5 6 7" [2, 3, 4, 5, 6, 7]
      (by decide) (by decide)⟩⟩

/-- C7 counterexample: the stream segmenter of Pass 1/2 performs no comment
stripping — on a stream consisting of one fully commented-out fragment it
still finds one fragment match, while the comment-stripped stream yields
none. -/
theorem segmenter_matches_inside_comments :
    (segmentStream commentedStream).length = 1 ∧
    (segmentStream (stripComments commentedStream)).length = 0 := by
  exact ⟨by decide, by decide⟩

/-- C7 amended: comment text is stripped before transform matching only in
the page base-transform scan (`get_global_transform`), where a commented-out
`cm` is ignored; the fragment segmenter itself matches operators inside
comments (it extracts the body `XYZ` from a commented-out fragment). -/
theorem comment_stripping_only_in_base_transform_scan :
    get_global_transform commentedCmStream = some ⟨2, 0, 0, 2, 0, 0⟩ ∧
    (segmentStream commentedStream).map (fun t => t.2.1) = ["XYZ"] := by
  exact ⟨by decide, by decide⟩

/-- C2: the AABB mapping transforms all four corners of the box and takes
the componentwise min/max of the four results (every transformed corner
lies inside the resulting box); in particular, the unit square at the
origin mapped through the 45° rotation matrix yields an axis-aligned box of
side `√2`, not the unrotated unit box. -/
theorem aabb_transforms_all_four_corners :
    (∀ (bb : BBox ℝ) (m : Mat ℝ),
      insideBBox (transform_point bb.x0 bb.y0 m) (get_raw_aabb bb m) ∧
      insideBBox (transform_point bb.x1 bb.y0 m) (get_raw_aabb bb m) ∧
      insideBBox (transform_point bb.x1 bb.y1 m) (get_raw_aabb bb m) ∧
      insideBBox (transform_point bb.x0 bb.y1 m) (get_raw_aabb bb m)) ∧
    (get_raw_aabb (⟨0, 0, 1, 1⟩ : BBox ℝ)
        ⟨Real.sqrt 2 / 2, Real.sqrt 2 / 2, -(Real.sqrt 2 / 2), Real.sqrt 2 / 2, 0, 0⟩).x1 -
      (get_raw_aabb (⟨0, 0, 1, 1⟩ : BBox ℝ)
        ⟨Real.sqrt 2 / 2, Real.sqrt 2 / 2, -(Real.sqrt 2 / 2), Real.sqrt 2 / 2, 0, 0⟩).x0
      = Real.sqrt 2 ∧
    (get_raw_aabb (⟨0, 0, 1, 1⟩ : BBox ℝ)
        ⟨Real.sqrt 2 / 2, Real.sqrt 2 / 2, -(Real.sqrt 2 / 2), Real.sqrt 2 / 2, 0, 0⟩).y1 -
      (get_raw_aabb (⟨0, 0, 1, 1⟩ : BBox ℝ)
        ⟨Real.sqrt 2 / 2, Real.sqrt 2 / 2, -(Real.sqrt 2 / 2), Real.sqrt 2 / 2, 0, 0⟩).y0
      = Real.sqrt 2 ∧
    get_raw_aabb (⟨0, 0, 1, 1⟩ : BBox ℝ)
        ⟨Real.sqrt 2 / 2, Real.sqrt 2 / 2, -(Real.sqrt 2 / 2), Real.sqrt 2 / 2, 0, 0⟩
      ≠ (⟨0, 0, 1, 1⟩ : BBox ℝ) := by
  have h2 : (0 : ℝ) < Real.sqrt 2 := Real.sqrt_pos.mpr (by norm_num)
  have hbox : get_raw_aabb (⟨0, 0, 1, 1⟩ : BBox ℝ)
      ⟨Real.sqrt 2 / 2, Real.sqrt 2 / 2, -(Real.sqrt 2 / 2), Real.sqrt 2 / 2, 0, 0⟩
      = ⟨-(Real.sqrt 2 / 2), 0, Real.sqrt 2 / 2, Real.sqrt 2 / 2 + Real.sqrt 2 / 2⟩ := by
    simp only [get_raw_aabb, transform_point]
    norm_num
    constructor
    · rw [min_eq_right (show -(Real.sqrt 2 / 2) ≤ (0 : ℝ) by linarith),
          min_eq_right (show -(Real.sqrt 2 / 2) ≤ Real.sqrt 2 / 2 by linarith)]
    · linarith
  refine ⟨?_, ?_, ?_, ?_⟩
  · intro bb m
    simp only [insideBBox, get_raw_aabb]
    refine ⟨⟨?_, ?_, ?_, ?_⟩, ⟨?_, ?_, ?_, ?_⟩, ⟨?_, ?_, ?_, ?_⟩, ⟨?_, ?_, ?_, ?_⟩⟩ <;>
      simp [min_le_iff, le_max_iff]
  · rw [hbox]
    show Real.sqrt 2 / 2 - -(Real.sqrt 2 / 2) = Real.sqrt 2
    ring
  · rw [hbox]
    show Real.sqrt 2 / 2 + Real.sqrt 2 / 2 - 0 = Real.sqrt 2
    ring
  · rw [hbox]
    intro h
    injection h with hx0 hrest
    linarith

/-- C4 counterexample: two occurrences of the geometry-free body `h S` are
retained with stored count 2, yet Pass 2 skips both (no extractable
bounding box), producing an instance list with zero references to the
definition — the stored count does not equal the number of referencing
instances. -/
theorem shape_count_exceeds_referencing_instances :
    (lookupKey "h S" (analyze_global_shapes [] fragsNoGeom)).map ShapeMeta.count
      = some 2 ∧
    process_and_export fragsNoGeom (analyze_global_shapes [] fragsNoGeom)
      = some [] := by
  exact ⟨by decide, by decide⟩

theorem countP_congr_local {α : Type} (p q : α → Bool) :
    ∀ l : List α, (∀ x ∈ l, p x = q x) → l.countP p = l.countP q := by
  intro l
  induction l with
  | nil => intro _; rfl
  | cons a as ih =>
    intro h
    rw [List.countP_cons, List.countP_cons, h a (by simp),
      ih (fun x hx => h x (by simp [hx]))]

theorem count_map_local {α β : Type} [DecidableEq β] (g : α → β) (b : β) :
    ∀ l : List α, (l.map g).count b = l.countP (fun x => g x == b) := by
  intro l
  induction l with
  | nil => rfl
  | cons a as ih => simp [List.count_cons, List.countP_cons, ih]

theorem analyze_id_injective (colors : List (ℚ × ℚ × ℚ)) (frags : List Frag) :
    ∀ {k1 m1 k2 m2}, (k1, m1) ∈ analyze_global_shapes colors frags →
      (k2, m2) ∈ analyze_global_shapes colors frags → m1.id = m2.id → k1 = k2 := by
  intro k1 m1 k2 m2 h1 h2 hid
  unfold analyze_global_shapes at h1 h2
  obtain ⟨-, i1, hi1, hg1, hid1⟩ := mem_buildRegistry _ _ _ _ _ _ _ h1
  obtain ⟨-, i2, hi2, hg2, hid2⟩ := mem_buildRegistry _ _ _ _ _ _ _ h2
  have hii : i1 = i2 := by omega
  subst hii
  rw [hg1] at hg2
  exact Option.some.inj hg2

theorem pass2Aux_filter_length (reg : List (String × ShapeMeta)) (sid : Nat) :
    ∀ (frags : List Frag) (ctr : Nat) (insts : List Inst),
      pass2Aux reg frags ctr = some insts →
      (insts.filter (fun i => i.shape_id == sid)).length
        = (frags.filter (countsFor reg sid)).length := by
  intro frags
  induction frags with
  | nil =>
    intro ctr insts h
    simp only [pass2Aux, Option.some.injEq] at h
    subst h
    rfl
  | cons f rest ih =>
    intro ctr insts h
    simp only [pass2Aux] at h
    cases hl : lookupKey (normalize_snippet f.body) reg with
    | none =>
      rw [hl] at h
      rw [List.filter_cons_of_neg (by simp [countsFor, hl])]
      exact ih ctr insts h
    | some m =>
      rw [hl] at h
      cases hb : get_bounding_box f.body with
      | none => rw [hb] at h; simp at h
      | some obb =>
        rw [hb] at h
        cases hm : parse_transform_matrix f.pre with
        | none => rw [hm] at h; simp at h
        | some mat =>
          rw [hm] at h
          cases obb with
          | none =>
            rw [List.filter_cons_of_neg (by simp [countsFor, hl, hb])]
            exact ih ctr insts h
          | some bb =>
            cases hrec : pass2Aux reg rest (ctr + 1) with
            | none => rw [hrec] at h; simp at h
            | some l =>
              rw [hrec] at h
              simp only [Option.map_some', Option.some.injEq] at h
              subst h
              have hcf : countsFor reg sid f = (m.id == sid) := by
                simp [countsFor, hl, hb]
              by_cases hid : m.id = sid
              · rw [List.filter_cons_of_pos (by simp [hid]),
                  List.filter_cons_of_pos (by simp [hcf, hid])]
                simp only [List.length_cons]
                rw [ih (ctr + 1) l hrec]
              · rw [List.filter_cons_of_neg (by simp [hid]),
                  List.filter_cons_of_neg (by simp [hcf, hid])]
                exact ih (ctr + 1) l hrec

/-- C4 amended: a ShapeDefinition's stored count equals its key's corpus-wide
occurrence count from Pass 1; it equals the number of ShapeInstance records
referencing the definition whenever every occurrence of that key has an
extractable bounding box (occurrences without geometry are skipped by
Pass 2 and make the instance count smaller, as the counterexample shows). -/
theorem shape_count_matches_instances_when_geometry_present :
    ∀ (colors : List (ℚ × ℚ × ℚ)) (frags : List Frag) (key : String)
      (meta : ShapeMeta) (insts : List Inst),
      lookupKey key (analyze_global_shapes colors frags) = some meta →
      process_and_export frags (analyze_global_shapes colors frags) = some insts →
      (∀ f ∈ frags, normalize_snippet f.body = key →
        ∃ bb, get_bounding_box f.body = some (some bb)) →
      (insts.filter (fun i => i.shape_id == meta.id)).length = meta.count := by
  intro colors frags key meta insts hk hp hgeo
  have hmem := lookupKey_mem hk
  have hcount : meta.count = (frags.map (fun f => normalize_snippet f.body)).count key := by
    have hmem' := hmem
    unfold analyze_global_shapes at hmem'
    exact (mem_buildRegistry _ _ _ _ _ _ _ hmem').1
  rw [pass2Aux_filter_length (analyze_global_shapes colors frags) meta.id frags 1 insts hp,
    hcount, count_map_local, ← List.countP_eq_length_filter]
  apply countP_congr_local
  intro f hf
  by_cases hn : normalize_snippet f.body = key
  · obtain ⟨bb, hbb⟩ := hgeo f hf hn
    simp [countsFor, hn, hk, hbb]
  · have hrhs : (normalize_snippet f.body == key) = false := by
      simp [hn]
    rw [hrhs]
    cases hl : lookupKey (normalize_snippet f.body) (analyze_global_shapes colors frags) with
    | none => simp [countsFor, hl]
    | some m =>
      cases hb : get_bounding_box f.body with
      | none => simp [countsFor, hl, hb]
      | some obb =>
        cases obb with
        | none => simp [countsFor, hl, hb]
        | some bb =>
          simp only [countsFor, hl, hb]
          by_cases hid : m.id = meta.id
          · exact absurd
              (analyze_id_injective colors frags (lookupKey_mem hl) hmem hid) hn
          · simp [hid]

/-- C4 amended witness: on two rectangle fragments with geometry, the two
instances both reference definition 1 and the stored count is 2. -/
theorem shape_count_matches_instances_witness :
    lookupKey "0 0 10 10 re f" (analyze_global_shapes [] fragsRect)
        = some ⟨1, 2, (0, 0, 0), true⟩ ∧
    (((process_and_export fragsRect (analyze_global_shapes [] fragsRect)).getD []).filter
        (fun i => i.shape_id == (1 : Nat))).length = 2 := by
  refine ⟨by decide, ?_⟩
  have h := shape_count_matches_instances_when_geometry_present [] fragsRect
    "0 0 10 10 re f" ⟨1, 2, (0, 0, 0), true⟩
    ((process_and_export fragsRect (analyze_global_shapes [] fragsRect)).getD [])
    (by decide) (by decide)
    (by
      intro f hf _
      rcases List.mem_cons.mp hf with rfl | hf'
      · exact ⟨⟨0, 0, 10, 10⟩, by decide⟩
      rcases List.mem_cons.mp hf' with rfl | hf''
      · exact ⟨⟨0, 0, 10, 10⟩, by decide⟩
      · cases hf'')
  exact h

theorem composeLoop_eq (ms : List (List String)) :
    ∀ g : Mat ℚ, composeLoop g ms =
      (ms.mapM (fun toks => List.mapM pythonFloat toks)).map
        (fun l => l.foldl (fun acc args => mult_matrix (matOfList args) acc) g) := by
  induction ms with
  | nil => intro g; rfl
  | cons t ts ih =>
    intro g
    simp only [composeLoop, List.mapM_cons]
    cases List.mapM pythonFloat t with
    | none => rfl
    | some args =>
      refine (ih (mult_matrix (matOfList args) g)).trans ?_
      cases ts.mapM (fun toks => List.mapM pythonFloat toks) with
      | none => rfl
      | some ls => rfl

theorem get_global_transform_eq_spec (text : String) :
    get_global_transform text = pageBaseTransformSpec text := by
  unfold get_global_transform pageBaseTransformSpec
  cases hb : findBoundaryPos ((stripComments text).toList) with
  | none =>
    simp only [hb, Option.getD_none]
    cases hcm : scanAll matchCmAt
        ((stripComments text).toList.take 1000).length
        ((stripComments text).toList.take 1000) with
    | nil => rfl
    | cons t ts => rw [composeLoop_eq]; simp [hcm]
  | some i =>
    simp only [hb, Option.getD_some]
    cases hcm : scanAll matchCmAt
        ((stripComments text).toList.take i).length
        ((stripComments text).toList.take i) with
    | nil => rfl
    | cons t ts => rw [composeLoop_eq]; simp [hcm]

theorem lookupPage_memoStep_preserved (content : Nat → String) (st : CropCache)
    (q p : Nat) (v : Option (Mat ℚ)) (h : lookupPage p st.seen = some v) :
    lookupPage p (memoStep content st q).seen = some v := by
  unfold memoStep
  cases hq : lookupPage q st.seen with
  | some _ => exact h
  | none =>
    have hne : q ≠ p := by
      intro he
      subst he
      rw [h] at hq
      cases hq
    simp only [lookupPage, if_neg hne]
    exact h

theorem lookupPage_foldl_preserved (content : Nat → String) :
    ∀ (ps : List Nat) (st : CropCache) (p : Nat) (v : Option (Mat ℚ)),
      lookupPage p st.seen = some v →
      lookupPage p (ps.foldl (memoStep content) st).seen = some v := by
  intro ps
  induction ps with
  | nil => intro st p v h; exact h
  | cons q qs ih =>
    intro st p v h
    exact ih _ p v (lookupPage_memoStep_preserved content st q p v h)

theorem cacheOK_memoStep (content : Nat → String) (st : CropCache) (p : Nat)
    (h : cacheOK content st) : cacheOK content (memoStep content st p) := by
  obtain ⟨hval, hnodup, hdom⟩ := h
  unfold memoStep
  cases hp : lookupPage p st.seen with
  | some _ => exact ⟨hval, hnodup, hdom⟩
  | none =>
    refine ⟨?_, ?_, ?_⟩
    · intro r v hr
      by_cases hrp : p = r
      · subst hrp
        have hlp : lookupPage p ((p, get_global_transform (content p)) :: st.seen)
            = some (get_global_transform (content p)) := by simp [lookupPage]
        rw [hlp] at hr
        exact (Option.some.inj hr).symm
      · simp only [lookupPage, if_neg hrp] at hr
        exact hval r v hr
    · refine List.Nodup.cons ?_ hnodup
      intro hmem
      have := (hdom p).mp hmem
      rw [hp] at this
      cases this
    · intro r
      by_cases hrp : p = r
      · subst hrp
        simp [lookupPage]
      · simp only [List.mem_cons, lookupPage, if_neg hrp]
        rw [← hdom r]
        constructor
        · rintro (he | hm)
          · exact absurd he.symm hrp
          · exact hm
        · exact Or.inr

theorem cacheOK_foldl (content : Nat → String) :
    ∀ (ps : List Nat) (st : CropCache),
      cacheOK content st → cacheOK content (ps.foldl (memoStep content) st) := by
  intro ps
  induction ps with
  | nil => intro st h; exact h
  | cons q qs ih => intro st h; exact ih _ (cacheOK_memoStep content st q h)

theorem lookupPage_after_fold (content : Nat → String) :
    ∀ (ps : List Nat) (st : CropCache), cacheOK content st →
      ∀ p ∈ ps, lookupPage p (ps.foldl (memoStep content) st).seen
        = some (get_global_transform (content p)) := by
  intro ps
  induction ps with
  | nil => intro st _ p hp; cases hp
  | cons q qs ih =>
    intro st hok p hp
    rcases List.mem_cons.mp hp with rfl | hmem
    · have hq : lookupPage p (memoStep content st p).seen
          = some (get_global_transform (content p)) := by
        unfold memoStep
        cases hl : lookupPage p st.seen with
        | some v =>
          rw [hl]
          exact congrArg some (hok.1 p v hl)
        | none => simp [lookupPage]
      exact lookupPage_foldl_preserved content qs _ p _ hq
    · exact ih (memoStep content st q) (cacheOK_memoStep content st q hok) p hmem

/-- C5: the per-page base transform is computed from the header up to the
first region-boundary token (`q`, `BT` or `Do`, whichever comes first), or
the first 1000 characters when none exists, composing every `cm` transform
in encounter order from the identity (`get_global_transform` coincides with
the specification-shaped `pageBaseTransformSpec`); and the instance loop of
`crop_shapes` memoizes it: the computation log has no duplicate page, and
every processed page's cache entry holds exactly the page's transform. -/
theorem page_base_transform_header_and_memoized :
    (∀ text : String, get_global_transform text = pageBaseTransformSpec text) ∧
    (∀ (content : Nat → String) (ps : List Nat),
      (runCrop content ps).computeLog.Nodup ∧
      ∀ p, p ∈ ps → lookupPage p (runCrop content ps).seen
        = some (get_global_transform (content p))) := by
  refine ⟨get_global_transform_eq_spec, ?_⟩
  intro content ps
  have hok0 : cacheOK content ⟨[], []⟩ := by
    refine ⟨?_, List.nodup_nil, ?_⟩
    · intro p v h; cases h
    · intro p
      simp [lookupPage]
  refine ⟨(cacheOK_foldl content ps _ hok0).2.1, ?_⟩
  intro p hp
  exact lookupPage_after_fold content ps _ hok0 p hp

/-- C5 witness: processing the page list `[3, 3]` computes the transform of
page 3 once and caches it. -/
theorem page_base_transform_memoized_witness :
    (3 : Nat) ∈ [3, 3] ∧
    lookupPage 3 (runCrop (fun _ => c1Stream) [3, 3]).seen
      = some (get_global_transform c1Stream) :=
  ⟨by decide,
   (page_base_transform_header_and_memoized.2 (fun _ => c1Stream) [3, 3]).2 3 (by decide)⟩
